import Mathlib

/-!
Shallow embedding of `src/kingpin/game.py` (class `BowlingGame`).

A roll symbol is a Python string, modelled as a `List Char`.  The Python
string methods used by the source (`str.strip`, `str.upper`, `str.isdigit`,
`int(...)`) are modelled for the ASCII range, which covers every symbol the
source documents as valid (digits, `X`, `x`, `/`) as well as arbitrary junk
input built from ASCII characters.

Each `raise InvalidGameError(...)` site of the source is mapped to its own
constructor of `Err`, so distinct error messages are distinguishable.
-/

namespace Kingpin

/-- a roll symbol: one Python string. -/
abbrev Sym := List Char

/-- the ASCII whitespace characters stripped by Python `str.strip()`. -/
def isPySpace (c : Char) : Bool :=
  c = ' ' || c = '\t' || c = '\n' || c = '\r' ||
  c = Char.ofNat 11 || c = Char.ofNat 12

/-- Python `s.strip()` (ASCII whitespace). -/
def pyStrip (s : Sym) : Sym :=
  ((s.dropWhile isPySpace).reverse.dropWhile isPySpace).reverse

/-- Python `str.upper` on one ASCII character. -/
def pyToUpper (c : Char) : Char :=
  if 97 ≤ c.toNat ∧ c.toNat ≤ 122 then Char.ofNat (c.toNat - 32) else c

/-- Python `s.upper()` (ASCII). -/
def pyUpper (s : Sym) : Sym := s.map pyToUpper

/-- Python `c.isdigit()` for one ASCII character. -/
def pyCharIsDigit (c : Char) : Bool :=
  48 ≤ c.toNat && c.toNat ≤ 57

/-- Python `s.isdigit()` (ASCII): nonempty and all digits. -/
def pyIsDigit (s : Sym) : Bool :=
  !s.isEmpty && s.all pyCharIsDigit

/-- value of an all-digit string (what Python `int` returns under an
`isdigit` guard). -/
def digitsToNat (s : Sym) : Nat :=
  s.foldl (fun a c => 10 * a + (c.toNat - 48)) 0

/-- Python `int(s)` on an already-stripped string: optional sign followed by
digits, `none` when `int` would raise `ValueError`.  (Underscore separators
of Python numeric literals are not modelled; no claim involves them.) -/
def pyInt (s : Sym) : Option Int :=
  if s.headD ' ' = '-' then
    if pyIsDigit s.tail then some (-(digitsToNat s.tail : Int)) else none
  else if s.headD ' ' = '+' then
    if pyIsDigit s.tail then some (digitsToNat s.tail : Int) else none
  else
    if pyIsDigit s then some (digitsToNat s : Int) else none

/-- the string `"X"`. -/
def xSym : Sym := ['X']

/-- the string `"/"`. -/
def slashSym : Sym := ['/']

/-- one constructor per `raise InvalidGameError(...)` site of the source,
in source order. -/
inductive Err where
  /-- error of `_validate_structure`: game cannot have more than 10 frames. -/
  | tooManyFrames
  /-- error: frame i has too many rolls, max is 2 (frames 1-9). -/
  | tooManyRolls
  /-- error: strike must be the first roll. -/
  | strikeNotFirst
  /-- error: frame is a strike but has extra rolls. -/
  | strikeExtraRolls
  /-- error: frame 10 has too many rolls, max is 3. -/
  | frame10TooManyRolls
  /-- error: extra roll in frame 10 only allowed for strike or spare. -/
  | frame10UnearnedBonus
  /-- error: spare cannot be the first roll. -/
  | spareFirstRoll
  /-- error: spare cannot follow a strike or spare mark. -/
  | spareFollowsMark
  /-- error: invalid symbol found. -/
  | invalidSymbol
  /-- error: invalid pin count, outside 0-9. -/
  | invalidPinCount
  /-- error: bonus rolls in frame 10 exceed 10 pins. -/
  | frame10BonusExceeds10
  /-- error: a spare in frame 10 must use the spare mark. -/
  | frame10BonusMustUseSpare
  /-- error: frame sum is 10, the spare mark is required. -/
  | frameSumMustUseSpare
  /-- error: frame sum of pins exceeds 10. -/
  | frameSumInvalid
  deriving DecidableEq

/-- the per-symbol loop (`for i, roll_str in enumerate(frame)`) of
`_parse_frames_to_rolls`, for the frame at 0-based position `index`.
`rest` is the portion of `frame` from position `i` on; `racc` is the flat
pinfall list accumulated so far, most recent roll first (so Python's
`rolls[-1]` is `racc.headD 0`; in the spare branch `i ≠ 0` guarantees a
roll was appended for `frame[i-1]`, so `racc` is nonempty there); `pinSum`
is `frame_pin_sum`. -/
def parseRolls (index : Nat) (frame : List Sym) (i : Nat) (rest : List Sym)
    (racc : List Int) (pinSum : Int) : Except Err (List Int) :=
  match rest with
  | [] => .ok racc
  | s :: rest' =>
    if pyUpper (pyStrip s) = xSym then
      parseRolls index frame (i + 1) rest' (10 :: racc) (pinSum + 10)
    else if pyStrip s = slashSym then
      if i = 0 then .error .spareFirstRoll
      else if pyUpper (pyStrip (frame.getD (i - 1) [])) = xSym ∨
              pyUpper (pyStrip (frame.getD (i - 1) [])) = slashSym then
        .error .spareFollowsMark
      else
        parseRolls index frame (i + 1) rest' ((10 - racc.headD 0) :: racc) 10
    else
      match pyInt (pyStrip s) with
      | none => .error .invalidSymbol
      | some val =>
        if val < 0 ∨ val > 9 then .error .invalidPinCount
        else if index = 9 ∧ 0 < i ∧ pyIsDigit (frame.getD (i - 1) []) ∧
                (digitsToNat (frame.getD (i - 1) []) : Int) + val > 10 then
          .error .frame10BonusExceeds10
        else if index = 9 ∧ 0 < i ∧ pyIsDigit (frame.getD (i - 1) []) ∧
                (digitsToNat (frame.getD (i - 1) []) : Int) + val = 10 then
          .error .frame10BonusMustUseSpare
        else if index < 9 ∧ i = 1 ∧
                frame.all (fun r => pyUpper r ≠ xSym) ∧
                frame.all (fun r => r ≠ slashSym) ∧ pinSum + val = 10 then
          .error .frameSumMustUseSpare
        else if index < 9 ∧ i = 1 ∧
                frame.all (fun r => pyUpper r ≠ xSym) ∧
                frame.all (fun r => r ≠ slashSym) ∧ pinSum + val > 10 then
          .error .frameSumInvalid
        else
          parseRolls index frame (i + 1) rest' (val :: racc) (pinSum + val)

/-- one iteration of the frame loop of `_parse_frames_to_rolls`: the
validation block (rules 1-3) for the frame at 0-based position `index`,
then the per-symbol parsing block. -/
def parseFrame (index : Nat) (frame : List Sym) (racc : List Int) :
    Except Err (List Int) :=
  if index < 9 ∧ frame.length > 2 then .error .tooManyRolls
  else if index < 9 ∧ frame.any (fun r => pyUpper r = xSym) then
    if pyUpper (frame.headD []) ≠ xSym then .error .strikeNotFirst
    else if frame.length ≠ 1 then .error .strikeExtraRolls
    else parseRolls index frame 0 frame racc 0
  else if index = 9 ∧ frame.length > 3 then .error .frame10TooManyRolls
  else if index = 9 ∧ frame.length = 3 ∧ pyUpper (frame.getD 0 []) ≠ xSym ∧
          (frame.length > 1 ∧ frame.getD 1 [] ≠ slashSym) then
    .error .frame10UnearnedBonus
  else parseRolls index frame 0 frame racc 0

/-- the frame loop of `_parse_frames_to_rolls`, starting at 0-based frame
position `index`, threading the reversed pinfall accumulator. -/
def parseFrom (index : Nat) (fs : List (List Sym)) (racc : List Int) :
    Except Err (List Int) :=
  match fs with
  | [] => .ok racc
  | f :: fs' =>
    match parseFrame index f racc with
    | .error e => .error e
    | .ok racc' => parseFrom (index + 1) fs' racc'

/-- the method `_parse_frames_to_rolls` of `BowlingGame`: the flat pinfall
list, in roll order, or the first rule violation. -/
def parseFramesToRolls (frames : List (List Sym)) : Except Err (List Int) :=
  (parseFrom 0 frames []).map List.reverse

/-- the frame loop of `_calculate_cumulative_scores`: `fuel` frames remain,
`ri` is `roll_index`, `total` is `running_total`.  A `break` leaves every
remaining entry `None`. -/
def calcFrom : Nat → List Int → Nat → Int → List (Option Int)
  | 0, _, _, _ => []
  | fuel + 1, rolls, ri, total =>
    if rolls.length ≤ ri then List.replicate (fuel + 1) none
    else if rolls.getD ri 0 = 10 then
      if rolls.length ≤ ri + 2 then List.replicate (fuel + 1) none
      else
        some (total + (10 + rolls.getD (ri + 1) 0 + rolls.getD (ri + 2) 0)) ::
          calcFrom fuel rolls (ri + 1)
            (total + (10 + rolls.getD (ri + 1) 0 + rolls.getD (ri + 2) 0))
    else if rolls.length ≤ ri + 1 then List.replicate (fuel + 1) none
    else if rolls.getD ri 0 + rolls.getD (ri + 1) 0 = 10 then
      if rolls.length ≤ ri + 2 then List.replicate (fuel + 1) none
      else
        some (total + (10 + rolls.getD (ri + 2) 0)) ::
          calcFrom fuel rolls (ri + 2) (total + (10 + rolls.getD (ri + 2) 0))
    else
      some (total + (rolls.getD ri 0 + rolls.getD (ri + 1) 0)) ::
        calcFrom fuel rolls (ri + 2)
          (total + (rolls.getD ri 0 + rolls.getD (ri + 1) 0))

/-- the method `_calculate_cumulative_scores` of `BowlingGame`. -/
def calculateCumulativeScores (rolls : List Int) : List (Option Int) :=
  calcFrom 10 rolls 0 0

/-- the method `score_game` of `BowlingGame`: `_validate_structure`, then
parse, then score. -/
def score_game (frames : List (List Sym)) :
    Except Err (List (Option Int)) :=
  if frames.length > 10 then .error .tooManyFrames
  else (parseFramesToRolls frames).map calculateCumulativeScores

/-- decidable equality of results, for evaluating the pipeline on concrete
games. -/
instance exceptDecEq {ε α : Type} [DecidableEq ε] [DecidableEq α] :
    DecidableEq (Except ε α) := fun a b =>
  match a, b with
  | .ok x, .ok y =>
    if h : x = y then .isTrue (by rw [h])
    else .isFalse (by intro hc; cases hc; exact h rfl)
  | .error x, .error y =>
    if h : x = y then .isTrue (by rw [h])
    else .isFalse (by intro hc; cases hc; exact h rfl)
  | .ok _, .error _ => .isFalse (by intro hc; cases hc)
  | .error _, .ok _ => .isFalse (by intro hc; cases hc)

/-! ### Helper lemmas about the scorer -/

theorem length_calcFrom :
    ∀ (fuel : Nat) (rolls : List Int) (ri : Nat) (total : Int),
      (calcFrom fuel rolls ri total).length = fuel := by
  intro fuel
  induction fuel with
  | zero => intro rolls ri total; simp [calcFrom]
  | succ n ih =>
    intro rolls ri total
    unfold calcFrom
    repeat' split
    all_goals simp [ih]

theorem replicate_none_getD (n j : Nat) (d : Option Int) (h : j < n) :
    (List.replicate n (none : Option Int)).getD j d = none := by
  induction n generalizing j with
  | zero => omega
  | succ n ih =>
    cases j with
    | zero => simp [List.replicate]
    | succ j => simpa [List.replicate] using ih j (by omega)

theorem calcFrom_succ_shape (n : Nat) (rolls : List Int) (ri : Nat)
    (total : Int) :
    calcFrom (n + 1) rolls ri total = List.replicate (n + 1) (none : Option Int) ∨
    ∃ t ri', calcFrom (n + 1) rolls ri total = some t :: calcFrom n rolls ri' t := by
  simp only [calcFrom]
  repeat' split
  all_goals first
    | exact Or.inl rfl
    | exact Or.inr ⟨_, _, rfl⟩

theorem calcFrom_none_mono :
    ∀ (fuel : Nat) (rolls : List Int) (ri : Nat) (total : Int) (i j : Nat),
      i ≤ j → j < fuel →
      (calcFrom fuel rolls ri total).getD i (some 0) = none →
      (calcFrom fuel rolls ri total).getD j (some 0) = none := by
  intro fuel
  induction fuel with
  | zero => intro rolls ri total i j hij hj; omega
  | succ n ih =>
    intro rolls ri total i j hij hj hi
    rcases calcFrom_succ_shape n rolls ri total with hsh | ⟨t, ri', hsh⟩
    · rw [hsh]
      exact replicate_none_getD _ _ _ hj
    · rw [hsh] at hi ⊢
      cases i with
      | zero => simp at hi
      | succ i' =>
        cases j with
        | zero => omega
        | succ j' =>
          simp only [List.getD_cons_succ] at hi ⊢
          exact ih rolls ri' t i' j' (by omega) (by omega) hi

theorem calcFrom_succ_bounded (n : Nat) (rolls : List Int) (ri : Nat)
    (total : Int) (hball : ∀ x ∈ rolls, 0 ≤ x ∧ x ≤ 10) :
    calcFrom (n + 1) rolls ri total = List.replicate (n + 1) (none : Option Int) ∨
    ∃ fs ri', 0 ≤ fs ∧ fs ≤ 30 ∧
      calcFrom (n + 1) rolls ri total =
        some (total + fs) :: calcFrom n rolls ri' (total + fs) := by
  have hget : ∀ k, k < rolls.length → 0 ≤ rolls.getD k 0 ∧ rolls.getD k 0 ≤ 10 := by
    intro k hk
    rw [List.getD_eq_getElem rolls 0 hk]
    exact hball _ (List.getElem_mem hk)
  simp only [calcFrom]
  by_cases h1 : rolls.length ≤ ri
  · rw [if_pos h1]; exact Or.inl rfl
  rw [if_neg h1]
  by_cases h2 : rolls.getD ri 0 = 10
  · rw [if_pos h2]
    by_cases h3 : rolls.length ≤ ri + 2
    · rw [if_pos h3]; exact Or.inl rfl
    · rw [if_neg h3]
      have ha := hget (ri + 1) (by omega)
      have hc := hget (ri + 2) (by omega)
      exact Or.inr ⟨10 + rolls.getD (ri + 1) 0 + rolls.getD (ri + 2) 0, ri + 1,
        by omega, by omega, rfl⟩
  rw [if_neg h2]
  by_cases h3 : rolls.length ≤ ri + 1
  · rw [if_pos h3]; exact Or.inl rfl
  rw [if_neg h3]
  by_cases h4 : rolls.getD ri 0 + rolls.getD (ri + 1) 0 = 10
  · rw [if_pos h4]
    by_cases h5 : rolls.length ≤ ri + 2
    · rw [if_pos h5]; exact Or.inl rfl
    · rw [if_neg h5]
      have ha := hget (ri + 2) (by omega)
      exact Or.inr ⟨10 + rolls.getD (ri + 2) 0, ri + 2, by omega, by omega, rfl⟩
  · rw [if_neg h4]
    have ha := hget ri (by omega)
    have hc := hget (ri + 1) (by omega)
    exact Or.inr ⟨rolls.getD ri 0 + rolls.getD (ri + 1) 0, ri + 2,
      by omega, by omega, rfl⟩

theorem calcFrom_entry_bounds (rolls : List Int)
    (hball : ∀ x ∈ rolls, 0 ≤ x ∧ x ≤ 10) :
    ∀ (fuel ri : Nat) (total : Int),
      (∀ (i : Nat) (a : Int), (calcFrom fuel rolls ri total).getD i none = some a →
        total ≤ a ∧ a ≤ total + 30 * (i + 1)) ∧
      (∀ (i : Nat) (a b : Int), (calcFrom fuel rolls ri total).getD i none = some a →
        (calcFrom fuel rolls ri total).getD (i + 1) none = some b → a ≤ b) := by
  intro fuel
  induction fuel with
  | zero =>
    intro ri total
    constructor
    · intro i a ha; simp [calcFrom] at ha
    · intro i a b ha hbb; simp [calcFrom] at ha
  | succ n ih =>
    intro ri total
    rcases calcFrom_succ_bounded n rolls ri total hball with hsh | ⟨fs, ri', h0, h30, hsh⟩
    · rw [hsh]
      have hrep : ∀ j : Nat, (List.replicate (n + 1) (none : Option Int)).getD j none = none := by
        intro j
        by_cases hj : j < n + 1
        · exact replicate_none_getD _ _ _ hj
        · rw [List.getD_eq_default]
          rw [List.length_replicate]; omega
      constructor
      · intro i a ha; rw [hrep] at ha; cases ha
      · intro i a b ha hbb; rw [hrep] at ha; cases ha
    · rw [hsh]
      obtain ⟨iha, ihb⟩ := ih ri' (total + fs)
      constructor
      · intro i a ha
        cases i with
        | zero =>
          simp only [List.getD_cons_zero] at ha
          injection ha with h
          omega
        | succ i' =>
          simp only [List.getD_cons_succ] at ha
          have := iha i' a ha
          constructor <;> omega
      · intro i a b ha hbb
        cases i with
        | zero =>
          simp only [List.getD_cons_zero, List.getD_cons_succ] at ha hbb
          injection ha with h
          have := iha 0 b hbb
          omega
        | succ i' =>
          simp only [List.getD_cons_succ] at ha hbb
          exact ihb i' a b ha hbb

/-! ### Helper lemmas about the parser -/

theorem headD_bound (racc : List Int) (h : ∀ x ∈ racc, 0 ≤ x ∧ x ≤ 10) :
    0 ≤ racc.headD 0 ∧ racc.headD 0 ≤ 10 := by
  cases racc with
  | nil => simp
  | cons x t => exact h x (by simp)

theorem parseRolls_bounds (index : Nat) (frame : List Sym) :
    ∀ (rest : List Sym) (i : Nat) (racc : List Int) (pinSum : Int) (out : List Int),
      (∀ x ∈ racc, 0 ≤ x ∧ x ≤ 10) →
      parseRolls index frame i rest racc pinSum = .ok out →
      ∀ x ∈ out, 0 ≤ x ∧ x ≤ 10 := by
  intro rest
  induction rest with
  | nil =>
    intro i racc pinSum out hinv h
    simp only [parseRolls] at h
    cases h
    exact hinv
  | cons s rest' ih =>
    intro i racc pinSum out hinv h
    simp only [parseRolls] at h
    split at h
    · -- strike branch
      refine ih (i + 1) (10 :: racc) (pinSum + 10) out ?_ h
      intro x hx
      rcases List.mem_cons.mp hx with hx | hx
      · subst hx; constructor <;> omega
      · exact hinv x hx
    split at h
    · -- spare branch
      split at h
      · simp at h
      split at h
      · simp at h
      · refine ih (i + 1) ((10 - racc.headD 0) :: racc) 10 out ?_ h
        intro x hx
        rcases List.mem_cons.mp hx with hx | hx
        · subst hx
          have := headD_bound racc hinv
          constructor <;> omega
        · exact hinv x hx
    · -- numeric branch
      split at h
      · simp at h
      · next val hval =>
        split at h
        · simp at h
        split at h
        · simp at h
        split at h
        · simp at h
        split at h
        · simp at h
        split at h
        · simp at h
        · next hrange _ _ _ _ =>
          refine ih (i + 1) (val :: racc) (pinSum + val) out ?_ h
          intro x hx
          rcases List.mem_cons.mp hx with hx | hx
          · subst hx; omega
          · exact hinv x hx

theorem parseFrame_bounds (index : Nat) (frame : List Sym) (racc out : List Int)
    (hinv : ∀ x ∈ racc, 0 ≤ x ∧ x ≤ 10)
    (h : parseFrame index frame racc = .ok out) :
    ∀ x ∈ out, 0 ≤ x ∧ x ≤ 10 := by
  unfold parseFrame at h
  repeat' split at h
  all_goals first
    | simp at h
    | exact parseRolls_bounds index frame frame 0 racc 0 out hinv h

theorem parseFrom_bounds (fs : List (List Sym)) :
    ∀ (index : Nat) (racc out : List Int),
      (∀ x ∈ racc, 0 ≤ x ∧ x ≤ 10) →
      parseFrom index fs racc = .ok out →
      ∀ x ∈ out, 0 ≤ x ∧ x ≤ 10 := by
  induction fs with
  | nil =>
    intro index racc out hinv h
    simp only [parseFrom] at h
    cases h
    exact hinv
  | cons f fs' ih =>
    intro index racc out hinv h
    simp only [parseFrom] at h
    split at h
    · simp at h
    · next racc' heq =>
      exact ih (index + 1) racc' out (parseFrame_bounds index f racc racc' hinv heq) h

theorem parseRolls_error_limited (index : Nat) (frame : List Sym) :
    ∀ (rest : List Sym) (i : Nat) (racc : List Int) (pinSum : Int),
      parseRolls index frame i rest racc pinSum ≠ .error .tooManyFrames ∧
      parseRolls index frame i rest racc pinSum ≠ .error .frame10UnearnedBonus := by
  intro rest
  induction rest with
  | nil => intro i racc pinSum; simp [parseRolls]
  | cons s rest' ih =>
    intro i racc pinSum
    simp only [parseRolls]
    repeat' split
    all_goals first
      | exact ih _ _ _
      | (constructor <;> simp)

theorem parseFrame_not_tooManyFrames (index : Nat) (frame : List Sym)
    (racc : List Int) : parseFrame index frame racc ≠ .error .tooManyFrames := by
  unfold parseFrame
  repeat' split
  all_goals first
    | exact (parseRolls_error_limited index frame frame 0 racc 0).1
    | simp

theorem parseFrom_not_tooManyFrames (fs : List (List Sym)) :
    ∀ (index : Nat) (racc : List Int),
      parseFrom index fs racc ≠ .error .tooManyFrames := by
  induction fs with
  | nil => intro index racc; simp [parseFrom]
  | cons f fs' ih =>
    intro index racc
    simp only [parseFrom]
    split
    · next e heq =>
      intro hc
      injection hc with hc'
      subst hc'
      exact parseFrame_not_tooManyFrames index f racc heq
    · exact ih _ _

theorem parseFrom_append (a b : List (List Sym)) :
    ∀ (index : Nat) (racc : List Int),
      parseFrom index (a ++ b) racc =
        match parseFrom index a racc with
        | .error e => .error e
        | .ok racc' => parseFrom (index + a.length) b racc' := by
  induction a with
  | nil => intro index racc; simp [parseFrom]
  | cons f a' ih =>
    intro index racc
    simp only [List.cons_append, parseFrom]
    cases parseFrame index f racc with
    | error e => rfl
    | ok racc' =>
      show parseFrom (index + 1) (a' ++ b) racc' =
        match parseFrom (index + 1) a' racc' with
        | .error e => .error e
        | .ok r => parseFrom (index + (f :: a').length) b r
      rw [ih (index + 1) racc']
      have harith : index + 1 + a'.length = index + (f :: a').length := by
        simp [List.length_cons]; omega
      rw [harith]

/-! ### Character-level facts about the Python string helpers -/

theorem pyToUpper_of_digit (c : Char) (h : pyCharIsDigit c = true) :
    pyToUpper c = c := by
  unfold pyCharIsDigit at h
  simp only [Bool.and_eq_true, decide_eq_true_eq] at h
  unfold pyToUpper
  have hnl : ¬(97 ≤ c.toNat ∧ c.toNat ≤ 122) := by omega
  rw [if_neg hnl]

theorem digit_ne_dash (c : Char) (h : pyCharIsDigit c = true) : c ≠ '-' := by
  intro hc; subst hc; exact absurd h (by decide)

theorem digit_ne_plus (c : Char) (h : pyCharIsDigit c = true) : c ≠ '+' := by
  intro hc; subst hc; exact absurd h (by decide)

theorem pyIsDigit_facts (s : Sym) (h : pyIsDigit s = true) :
    s ≠ [] ∧ ∀ c ∈ s, pyCharIsDigit c = true := by
  unfold pyIsDigit at h
  simp only [Bool.and_eq_true, Bool.not_eq_true', List.all_eq_true] at h
  obtain ⟨hne, hall⟩ := h
  constructor
  · cases s with
    | nil => simp at hne
    | cons c t => simp
  · exact hall

theorem pyUpper_digits_ne_xSym (s : Sym) (h : pyIsDigit s = true) :
    pyUpper s ≠ xSym := by
  obtain ⟨hne, hall⟩ := pyIsDigit_facts s h
  intro hc
  cases s with
  | nil => exact hne rfl
  | cons c t =>
    simp only [pyUpper, List.map_cons, xSym] at hc
    injection hc with h1 h2
    have hcdig := hall c (by simp)
    rw [pyToUpper_of_digit c hcdig] at h1
    subst h1
    exact absurd hcdig (by decide)

theorem digits_ne_slashSym (s : Sym) (h : pyIsDigit s = true) :
    s ≠ slashSym := by
  intro hc
  subst hc
  exact absurd h (by decide)

theorem pyInt_of_digits (s : Sym) (h : pyIsDigit s = true) :
    pyInt s = some (digitsToNat s : Int) := by
  obtain ⟨hne, hall⟩ := pyIsDigit_facts s h
  cases s with
  | nil => exact absurd rfl hne
  | cons c t =>
    have hc := hall c (by simp)
    unfold pyInt
    simp only [List.headD_cons]
    rw [if_neg (digit_ne_dash c hc), if_neg (digit_ne_plus c hc), if_pos h]

/-! ### Tenth-frame helper lemmas -/

theorem parseFrame9_three (f10 : List Sym) (racc : List Int)
    (h3 : f10.length = 3) :
    parseFrame 9 f10 racc =
      if pyUpper (f10.getD 0 []) ≠ xSym ∧ f10.getD 1 [] ≠ slashSym then
        .error .frame10UnearnedBonus
      else parseRolls 9 f10 0 f10 racc 0 := by
  unfold parseFrame
  rw [if_neg (fun hh : 9 < 9 ∧ f10.length > 2 => by omega)]
  rw [if_neg (fun hh : 9 < 9 ∧ (f10.any fun r => pyUpper r = xSym) = true =>
    by omega)]
  rw [if_neg (fun hh : 9 = 9 ∧ f10.length > 3 => by omega)]
  by_cases hAB : pyUpper (f10.getD 0 []) ≠ xSym ∧ f10.getD 1 [] ≠ slashSym
  · rw [if_pos ⟨rfl, h3, hAB.1, by omega, hAB.2⟩, if_pos hAB]
  · rw [if_neg (fun hh => hAB ⟨hh.2.2.1, hh.2.2.2.2⟩), if_neg hAB]

theorem parseFrom_nine_then_tenth (first9 : List (List Sym)) (f10 : List Sym)
    (racc : List Int) (h9 : first9.length = 9)
    (hp : parseFrom 0 first9 [] = .ok racc) :
    parseFrom 0 (first9 ++ [f10]) [] = parseFrame 9 f10 racc := by
  rw [parseFrom_append first9 [f10] 0 [], hp]
  show parseFrom (0 + first9.length) [f10] racc = parseFrame 9 f10 racc
  rw [h9]
  simp only [parseFrom]
  cases parseFrame 9 f10 racc with
  | error e => rfl
  | ok r => rfl

/-! ### Pipeline decomposition -/

theorem scoreGame_ok_elim (frames : List (List Sym)) (r : List (Option Int))
    (h : score_game frames = .ok r) :
    ∃ rolls, parseFramesToRolls frames = .ok rolls ∧
      r = calculateCumulativeScores rolls := by
  unfold score_game at h
  split at h
  · simp at h
  · cases hp : parseFramesToRolls frames with
    | error e => rw [hp] at h; simp [Except.map] at h
    | ok rolls =>
      rw [hp] at h
      simp only [Except.map] at h
      injection h with h'
      exact ⟨rolls, rfl, h'.symm⟩

theorem parseFramesToRolls_bounds (frames : List (List Sym))
    (rolls : List Int) (h : parseFramesToRolls frames = .ok rolls) :
    ∀ x ∈ rolls, 0 ≤ x ∧ x ≤ 10 := by
  unfold parseFramesToRolls at h
  cases hp : parseFrom 0 frames [] with
  | error e => rw [hp] at h; simp [Except.map] at h
  | ok v =>
    rw [hp] at h
    simp only [Except.map] at h
    injection h with h'
    subst h'
    intro x hx
    exact parseFrom_bounds frames 0 [] v (by simp) hp x (List.mem_reverse.mp hx)

/-! ### The claims -/

/-- Claim C1: every output `score_game` accepts has exactly 10 entries and
its unknown (`none`) entries form a suffix: once an entry is `none`, every
subsequent entry is `none` as well, so the list is a prefix of resolved
scores followed by unknowns. -/
theorem scoreGame_length_and_none_suffix (frames : List (List Sym))
    (r : List (Option Int)) (h : score_game frames = .ok r) :
    r.length = 10 ∧
    ∀ i j : Nat, i ≤ j → j < 10 → r.getD i (some 0) = none →
      r.getD j (some 0) = none := by
  obtain ⟨rolls, -, hr⟩ := scoreGame_ok_elim frames r h
  subst hr
  exact ⟨length_calcFrom 10 rolls 0 0,
    fun i j hij hj hi => calcFrom_none_mono 10 rolls 0 0 i j hij hj hi⟩

/-- Witness for C1 at the partial game `[["X"],["5","4"],["X"]]`. -/
theorem scoreGame_length_and_none_suffix_witness :
    score_game [[['X']], [['5'], ['4']], [['X']]] =
      .ok [some 19, some 28, none, none, none, none, none, none, none, none] ∧
    ([some 19, some 28, none, none, none, none, none, none, none, none] :
      List (Option Int)).length = 10 ∧
    ([some 19, some 28, none, none, none, none, none, none, none, none] :
      List (Option Int)).getD 7 (some 0) = none :=
  ⟨by decide,
   (scoreGame_length_and_none_suffix [[['X']], [['5'], ['4']], [['X']]] _
     (by decide)).1,
   (scoreGame_length_and_none_suffix [[['X']], [['5'], ['4']], [['X']]] _
     (by decide)).2 2 7 (by decide) (by decide) (by decide)⟩

/-- Claim C2: the acceptance-test game
`[["8","/"],["5","4"],["9","0"],["X"],["X"],["5","/"],["5","3"],["6","3"],["9","/"],["9","/","X"]]`
is accepted and scores `[15,24,33,58,78,93,101,110,129,149]`. -/
theorem scoreGame_acceptance_game :
    score_game [[['8'], ['/']], [['5'], ['4']], [['9'], ['0']], [['X']],
      [['X']], [['5'], ['/']], [['5'], ['3']], [['6'], ['3']], [['9'], ['/']],
      [['9'], ['/'], ['X']]] =
    .ok [some 15, some 24, some 33, some 58, some 78, some 93, some 101,
      some 110, some 129, some 149] := by decide

/-- Claim C3: for every game `score_game` accepts, resolved entries are
non-negative, consecutive resolved entries are non-decreasing, and when all
10 entries are resolved the tenth lies in `[0, 300]`. -/
theorem scoreGame_monotone_bounded (frames : List (List Sym))
    (r : List (Option Int)) (h : score_game frames = .ok r) :
    (∀ (i : Nat) (a : Int), r.getD i none = some a → 0 ≤ a) ∧
    (∀ (i : Nat) (a b : Int), r.getD i none = some a →
      r.getD (i + 1) none = some b → a ≤ b) ∧
    ((∀ i : Nat, i < 10 → r.getD i none ≠ none) →
      ∀ z : Int, r.getD 9 none = some z → 0 ≤ z ∧ z ≤ 300) := by
  obtain ⟨rolls, hrolls, hr⟩ := scoreGame_ok_elim frames r h
  have hb := parseFramesToRolls_bounds frames rolls hrolls
  subst hr
  obtain ⟨ha, hmono⟩ := calcFrom_entry_bounds rolls hb 10 0 0
  refine ⟨fun i a hia => (ha i a hia).1, hmono, fun _ z hz => ?_⟩
  have := ha 9 z hz
  omega

/-- Witness for C3 at the perfect game: all entries resolved, tenth entry
300. -/
theorem scoreGame_monotone_bounded_witness :
    score_game (List.replicate 9 [['X']] ++ [[['X'], ['X'], ['X']]]) =
      .ok [some 30, some 60, some 90, some 120, some 150, some 180, some 210,
        some 240, some 270, some 300] ∧
    ((0 : Int) ≤ 300 ∧ (300 : Int) ≤ 300) :=
  ⟨by decide,
   (scoreGame_monotone_bounded (List.replicate 9 [['X']] ++ [[['X'], ['X'], ['X']]])
     [some 30, some 60, some 90, some 120, some 150, some 180, some 210,
       some 240, some 270, some 300] (by decide)).2.2 (by decide) 300 (by decide)⟩

/-- Claim C4 is refuted by the code: whitespace is not always insignificant.
With trailing whitespace on the middle `5`, the tenth frame `["X","5 ","5"]`
is accepted (score 285), while the whitespace-free `["X","5","5"]` is
rejected with the must-use-spare-mark error, because the tenth-frame
consecutive-numeral check calls `isdigit` on the raw, unstripped previous
symbol. -/
theorem whitespace_changes_result :
    score_game (List.replicate 9 [['X']] ++ [[['X'], ['5', ' '], ['5']]]) =
      .ok [some 30, some 60, some 90, some 120, some 150, some 180, some 210,
        some 240, some 265, some 285] ∧
    score_game (List.replicate 9 [['X']] ++ [[['X'], ['5'], ['5']]]) =
      .error .frame10BonusMustUseSpare :=
  ⟨by decide, by decide⟩

/-- Claim C5 is false as stated: with three roll symbols the roll-count
bound fires before the strike-placement check (`[["0","X","0"]]` reports
too-many-rolls, not strike-not-first), and when the first symbol is itself
a strike the strike-extra-rolls error fires (`[["X","X"]]`). -/
theorem strike_placement_counterexample :
    score_game [[['0'], ['X'], ['0']]] = .error .tooManyRolls ∧
    score_game [[['X'], ['X']]] = .error .strikeExtraRolls :=
  ⟨by decide, by decide⟩

/-- Claim C5 (amended): for a frame among frames 1-9 holding at most two
roll symbols, if some symbol uppercases to `X` but the first symbol does
not, the parser fails with the strike-not-first error (placement is checked
before the strike roll-count check). -/
theorem strikeNotFirst_of_small_frame (index : Nat) (frame : List Sym)
    (racc : List Int) (h9 : index < 9) (hlen : frame.length ≤ 2)
    (hx : frame.any (fun r => pyUpper r = xSym))
    (hfirst : pyUpper (frame.headD []) ≠ xSym) :
    parseFrame index frame racc = .error .strikeNotFirst := by
  unfold parseFrame
  rw [if_neg (fun hh : index < 9 ∧ frame.length > 2 => by omega)]
  rw [if_pos ⟨h9, hx⟩, if_pos hfirst]

/-- Witness for the amended C5 at frame `["0","X"]`. -/
theorem strikeNotFirst_of_small_frame_witness :
    parseFrame 0 [['0'], ['X']] [] = .error .strikeNotFirst :=
  strikeNotFirst_of_small_frame 0 [['0'], ['X']] [] (by decide) (by decide)
    (by decide) (by decide)

/-- Claim C6: when the first nine frames parse successfully and the tenth
frame holds exactly three symbols, parsing fails with the unearned-bonus
error precisely when the first symbol does not uppercase to `X` and the
second symbol is not the raw spare mark; the check looks only at those two
symbols, so it fires before any per-symbol interpretation of the frame. -/
theorem tenthFrame_bonus_eligibility (first9 : List (List Sym))
    (f10 : List Sym) (racc : List Int) (h9 : first9.length = 9)
    (hp : parseFrom 0 first9 [] = .ok racc) (h3 : f10.length = 3) :
    parseFramesToRolls (first9 ++ [f10]) = .error .frame10UnearnedBonus ↔
      (pyUpper (f10.getD 0 []) ≠ xSym ∧ f10.getD 1 [] ≠ slashSym) := by
  unfold parseFramesToRolls
  rw [parseFrom_nine_then_tenth first9 f10 racc h9 hp,
    parseFrame9_three f10 racc h3]
  by_cases hc : pyUpper (f10.getD 0 []) ≠ xSym ∧ f10.getD 1 [] ≠ slashSym
  · rw [if_pos hc]
    exact ⟨fun _ => hc, fun _ => rfl⟩
  · rw [if_neg hc]
    constructor
    · intro hcon
      exfalso
      cases hq : parseRolls 9 f10 0 f10 racc 0 with
      | ok v => rw [hq] at hcon; simp [Except.map] at hcon
      | error e =>
        rw [hq] at hcon
        simp only [Except.map] at hcon
        injection hcon with he
        subst he
        exact (parseRolls_error_limited 9 f10 f10 0 racc 0).2 hq
    · intro hh
      exact absurd hh hc

/-- Witness for C6: nine strikes then `["5","3","1"]` is rejected with the
unearned-bonus error. -/
theorem tenthFrame_bonus_eligibility_witness :
    parseFramesToRolls (List.replicate 9 [['X']] ++ [[['5'], ['3'], ['1']]]) =
      .error .frame10UnearnedBonus :=
  (tenthFrame_bonus_eligibility (List.replicate 9 [['X']])
    [['5'], ['3'], ['1']] (List.replicate 9 (10 : Int)) (by decide) (by decide)
    (by decide)).mpr (by decide)

/-- Claim C7: in the tenth frame, when the symbol at position `i > 0`
(stripped) is all digits with value `v ≤ 9` and the raw previous symbol is
all digits with value `p`, the parser errors with exceeds-10-pins when
`p + v > 10`, with must-use-spare-mark when `p + v = 10`, and otherwise
appends `v` and continues. -/
theorem tenthFrame_consecutive_numerals (frame : List Sym) (i : Nat)
    (s : Sym) (rest' : List Sym) (racc : List Int) (pinSum : Int) (p v : Int)
    (hi : 0 < i)
    (hprevd : pyIsDigit (frame.getD (i - 1) []) = true)
    (hpv : (digitsToNat (frame.getD (i - 1) []) : Int) = p)
    (hcurd : pyIsDigit (pyStrip s) = true)
    (hv : (digitsToNat (pyStrip s) : Int) = v) (hv9 : v ≤ 9) :
    (p + v > 10 →
      parseRolls 9 frame i (s :: rest') racc pinSum =
        .error .frame10BonusExceeds10) ∧
    (p + v = 10 →
      parseRolls 9 frame i (s :: rest') racc pinSum =
        .error .frame10BonusMustUseSpare) ∧
    (p + v < 10 →
      parseRolls 9 frame i (s :: rest') racc pinSum =
        parseRolls 9 frame (i + 1) rest' (v :: racc) (pinSum + v)) := by
  have hv0 : 0 ≤ v := by
    rw [← hv]; exact Int.natCast_nonneg _
  have hrange : ¬(v < 0 ∨ v > 9) := by omega
  have hnotx := pyUpper_digits_ne_xSym _ hcurd
  have hnotsl := digits_ne_slashSym _ hcurd
  rw [List.getD_eq_getElem?_getD] at hprevd hpv
  refine ⟨fun hgt => ?_, fun heq => ?_, fun hlt => ?_⟩
  · simp [parseRolls, pyInt_of_digits _ hcurd, hv, hpv, hrange, hnotx, hnotsl,
      hi, hprevd, hgt]
  · have hngt : ¬(p + v > 10) := by omega
    simp [parseRolls, pyInt_of_digits _ hcurd, hv, hpv, hrange, hnotx, hnotsl,
      hi, hprevd, hngt, heq]
  · have hngt : ¬(p + v > 10) := by omega
    have hneq : ¬(p + v = 10) := by omega
    simp [parseRolls, pyInt_of_digits _ hcurd, hv, hpv, hrange, hnotx, hnotsl,
      hi, hprevd, hngt, hneq]

/-- Witness for C7: in tenth frame `["X","5","6"]` the rolls `5, 6` exceed
10 pins. -/
theorem tenthFrame_consecutive_numerals_witness :
    parseRolls 9 [['X'], ['5'], ['6']] 2 [['6']] [5, 10] 5 =
      .error .frame10BonusExceeds10 :=
  (tenthFrame_consecutive_numerals [['X'], ['5'], ['6']] 2 ['6'] [] [5, 10] 5
    5 6 (by decide) (by decide) (by decide) (by decide) (by decide)
    (by decide)).1 (by decide)

/-- Claim C8: `score_game` fails with the structure error exactly when more
than 10 frames are supplied; the check precedes parsing, and no input of at
most 10 frames produces that error. -/
theorem structure_error_iff (frames : List (List Sym)) :
    (frames.length > 10 → score_game frames = .error .tooManyFrames) ∧
    (frames.length ≤ 10 → score_game frames ≠ .error .tooManyFrames) := by
  constructor
  · intro h
    unfold score_game
    rw [if_pos h]
  · intro h hc
    unfold score_game at hc
    rw [if_neg (by omega)] at hc
    unfold parseFramesToRolls at hc
    cases hp : parseFrom 0 frames [] with
    | ok v => rw [hp] at hc; simp [Except.map] at hc
    | error e =>
      rw [hp] at hc
      simp only [Except.map] at hc
      injection hc with he
      subst he
      exact parseFrom_not_tooManyFrames frames 0 [] hp

/-- Witness for C8: eleven `["0","0"]` frames are rejected with the
structure error; the empty game is not. -/
theorem structure_error_iff_witness :
    score_game (List.replicate 11 [['0'], ['0']]) = .error .tooManyFrames ∧
    score_game [] ≠ .error .tooManyFrames :=
  ⟨(structure_error_iff (List.replicate 11 [['0'], ['0']])).1 (by decide),
   (structure_error_iff []).2 (by decide)⟩

/-- Claim C9: twelve strikes score `[30,60,90,...,300]`. -/
theorem scoreGame_perfect_game :
    score_game (List.replicate 9 [['X']] ++ [[['X'], ['X'], ['X']]]) =
    .ok [some 30, some 60, some 90, some 120, some 150, some 180, some 210,
      some 240, some 270, some 300] := by decide

/-- Claim C10: an empty frame passes every validation at any position and
appends no pinfalls, so later frames' rolls shift into earlier scoring
positions: `[[],["5","4"]]` scores 9 in the first frame and ten empty
frames leave every entry unknown. -/
theorem empty_frame_contributes_nothing :
    (∀ (index : Nat) (racc : List Int), parseFrame index [] racc = .ok racc) ∧
    score_game [[], [['5'], ['4']]] =
      .ok [some 9, none, none, none, none, none, none, none, none, none] ∧
    score_game (List.replicate 10 []) =
      .ok [none, none, none, none, none, none, none, none, none, none] := by
  refine ⟨fun index racc => ?_, by decide, by decide⟩
  simp [parseFrame, parseRolls]

end Kingpin
